import Mathlib

/-!
Verification of the `PDFCrawler` core (`src/pdf_crawler.py`) against its
natural-language specification.

The crawler is embedded shallowly:

* Python string operations (`in`, `endswith`, `startswith`, `str.find`,
  `str.rfind`, slicing) become executable functions on `String` / `List Char`.
* The parts of `urllib.parse` used by the crawler (`urlparse`, `urljoin`
  and their helpers) and of `os.path` (`basename`, `splitext`) are embedded
  following the CPython 3.11 algorithms.
* The crawler itself (`is_valid_url`, `get_pdf_filename`, `download_pdf`,
  `crawl_page`) becomes a state-passing program over `CrawlState`.
  The network and the HTML parser are external collaborators and are
  modelled by an environment `Env : String → FetchResult` giving, per URL,
  either a fetch error (transport error / timeout / non-2xx status, which
  `raise_for_status` turns into an exception) or a successful response with
  a content type and the list of `href` attributes the parser extracts.
  The output directory is modelled by the list of file names it contains.
  Every network access and file write is recorded as an `Event` so that
  "no fetch happens" claims are statements about the event trace.
-/

namespace PdfCrawler

/-! ### Python-style primitive string operations -/

/-- Index of the first occurrence of `c` in `l` (Python `str.find` when it
does not return `-1`). -/
def findChar (c : Char) : List Char → Option Nat
  | [] => none
  | a :: as => if a = c then some 0 else (findChar c as).map (· + 1)

/-- Index of the first occurrence of `c` in `l` at position `start` or later
(Python `str.find(c, start)`). -/
def findCharFrom (c : Char) (l : List Char) (start : Nat) : Option Nat :=
  (findChar c (l.drop start)).map (· + start)

/-- Index of the last occurrence of `c` in `l` (Python `str.rfind` when it
does not return `-1`). -/
def rfindChar (c : Char) : List Char → Option Nat
  | [] => none
  | a :: as =>
    match rfindChar c as with
    | some i => some (i + 1)
    | none => if a = c then some 0 else none

/-- Index of the first character satisfying `p` (used for the netloc
delimiter scan). -/
def findPred (p : Char → Bool) : List Char → Option Nat
  | [] => none
  | a :: as => if p a then some 0 else (findPred p as).map (· + 1)

/-- Python `sub in s` (substring containment). -/
def pyContains (s sub : String) : Bool := decide (sub.data <:+: s.data)

/-- Python `s.endswith(suffix)`. -/
def pyEndsWith (s suffix : String) : Bool := decide (suffix.data <:+ s.data)

/-- Python `s.startswith(pre)`. -/
def pyStartsWith (s pre : String) : Bool := decide (pre.data <+: s.data)

/-- Python `c in s` for a single character. -/
def pyHasChar (s : String) (c : Char) : Bool := (findChar c s.data).isSome

/-- Python `s.split(sep, 1)` for a one-character separator: the part before
the first occurrence and the part after it (`none` if `sep` is absent). -/
def splitOnce (c : Char) (l : List Char) : List Char × Option (List Char) :=
  match findChar c l with
  | some i => (l.take i, some (l.drop (i + 1)))
  | none => (l, none)

/-- Python `s.lower()` (ASCII case folding, which is all the crawler's
inputs exercise). -/
def pyLower (s : String) : String :=
  ⟨s.data.map Char.toLower⟩

/-- Python `s.split(sep)` for a one-character separator, on character
lists: `""` splits to `[""]`, and every occurrence of `c` separates. -/
def splitChar (c : Char) : List Char → List (List Char)
  | [] => [[]]
  | a :: as =>
    if a = c then [] :: splitChar c as
    else
      match splitChar c as with
      | [] => [[a]]
      | h :: t => (a :: h) :: t

/-- Python `s.split(sep)` returning strings. -/
def pySplit (s : String) (c : Char) : List String :=
  (splitChar c s.data).map List.asString

/-! ### `urllib.parse` subset (CPython 3.11 algorithms)

Only the pieces the crawler uses: `urlparse` (hence `urlsplit` and
`_splitparams`), `urljoin` (hence `urlunparse` / `urlunsplit`), and the
scheme tables `uses_relative`, `uses_netloc`, `uses_params`. -/

/-- Scheme component characters (`urllib.parse.scheme_chars`). -/
def isSchemeChar (c : Char) : Bool :=
  c.isAlpha || c.isDigit || c = '+' || c = '-' || c = '.'

/-- Schemes that can use relative references (`urllib.parse.uses_relative`). -/
def usesRelative : List String :=
  ["", "ftp", "http", "gopher", "nntp", "imap", "wais", "file", "https",
   "shttp", "mms", "prospero", "rtsp", "rtspu", "sftp", "svn", "svn+ssh",
   "ws", "wss"]

/-- Schemes that carry a network location (`urllib.parse.uses_netloc`). -/
def usesNetloc : List String :=
  ["", "ftp", "http", "gopher", "nntp", "telnet", "imap", "wais", "file",
   "mms", "https", "shttp", "snews", "prospero", "rtsp", "rtspu", "rsync",
   "svn", "svn+ssh", "sftp", "nfs", "git", "git+ssh", "ws", "wss",
   "itms-services"]

/-- Schemes whose path may carry parameters (`urllib.parse.uses_params`). -/
def usesParams : List String :=
  ["", "ftp", "hdl", "prospero", "http", "imap", "https", "shttp", "rtsp",
   "rtspu", "sip", "sips", "mms", "sftp", "tel"]

/-- Result of `urlsplit`: scheme, netloc, path, query, fragment. -/
structure SplitResult where
  scheme : String
  netloc : String
  path : String
  query : String
  fragment : String
deriving DecidableEq

/-- Result of `urlparse`: `urlsplit` plus the path parameters. -/
structure ParseResult where
  scheme : String
  netloc : String
  path : String
  params : String
  query : String
  fragment : String
deriving DecidableEq

/-- CPython `urllib.parse._splitnetloc(url, start)`: the netloc runs from
`start` up to the first `/`, `?` or `#`. -/
def splitnetloc (l : List Char) (start : Nat) : List Char × List Char :=
  let tail := l.drop start
  let delim := match findPred (fun c => c = '/' || c = '?' || c = '#') tail with
    | some i => i
    | none => tail.length
  (tail.take delim, tail.drop delim)

/-- CPython `urllib.parse.urlsplit(url, scheme)` (with `allow_fragments`
true, as in all of the crawler's call sites; the control-character
sanitisation and IPv6 bracket validation are omitted). -/
def urlsplit (url : String) (defaultScheme : String) : SplitResult :=
  let l := url.data
  let (scheme, rest) :=
    match findChar ':' l with
    | some i =>
      if 0 < i ∧ (l.take 1).all Char.isAlpha ∧ (l.take i).all isSchemeChar then
        (((l.take i).map Char.toLower).asString, l.drop (i + 1))
      else (defaultScheme, l)
    | none => (defaultScheme, l)
  let (netloc, rest) :=
    if rest.take 2 = ['/', '/'] then
      let (n, r) := splitnetloc rest 2
      (n.asString, r)
    else ("", rest)
  let (rest, fragment) :=
    match splitOnce '#' rest with
    | (u, some f) => (u, f.asString)
    | (u, none) => (u, "")
  let (rest, query) :=
    match splitOnce '?' rest with
    | (u, some q) => (u, q.asString)
    | (u, none) => (u, "")
  ⟨scheme, netloc, rest.asString, query, fragment⟩

/-- CPython `urllib.parse._splitparams(url)`: split the parameters off the
last path segment. -/
def splitparams (l : List Char) : List Char × List Char :=
  let i :=
    match rfindChar '/' l with
    | some s => findCharFrom ';' l s
    | none => findChar ';' l
  match i with
  | some i => (l.take i, l.drop (i + 1))
  | none => (l, [])

/-- CPython `urllib.parse.urlparse(url, scheme)`. -/
def urlparse (url : String) (defaultScheme : String) : ParseResult :=
  let r := urlsplit url defaultScheme
  if usesParams.contains r.scheme ∧ pyHasChar r.path ';' then
    let (p, par) := splitparams r.path.data
    ⟨r.scheme, r.netloc, p.asString, par.asString, r.query, r.fragment⟩
  else
    ⟨r.scheme, r.netloc, r.path, "", r.query, r.fragment⟩

/-- CPython `urllib.parse.urlunsplit` applied to the five components. -/
def urlunsplitCore (scheme netloc url query fragment : String) : String :=
  let url :=
    if netloc ≠ "" ∨ (url ≠ "" ∧ pyStartsWith url "//") then
      let url := if url ≠ "" ∧ ¬ pyStartsWith url "/" then "/" ++ url else url
      "//" ++ netloc ++ url
    else url
  let url := if scheme ≠ "" then scheme ++ ":" ++ url else url
  let url := if query ≠ "" then url ++ "?" ++ query else url
  if fragment ≠ "" then url ++ "#" ++ fragment else url

/-- CPython `urllib.parse.urlunparse`. -/
def urlunparse (r : ParseResult) : String :=
  let url := if r.params ≠ "" then r.path ++ ";" ++ r.params else r.path
  urlunsplitCore r.scheme r.netloc url r.query r.fragment

/-- Python `filter(None, _)` applied to `segments[1:-1]` (keeps the first
and last segments, drops empty middle segments). -/
def filterMiddle (l : List String) : List String :=
  match l with
  | [] => []
  | [a] => [a]
  | a :: rest =>
    a :: (rest.dropLast.filter (fun s => s ≠ "")) ++ [rest.getLastD ""]

/-- The `resolved_path` loop of `urljoin`: `..` pops (ignoring underflow),
`.` is dropped, any other segment is appended. -/
def resolveSegs (acc : List String) : List String → List String
  | [] => acc
  | seg :: rest =>
    if seg = ".." then resolveSegs acc.dropLast rest
    else if seg = "." then resolveSegs acc rest
    else resolveSegs (acc ++ [seg]) rest

/-- CPython `urllib.parse.urljoin(base, url)`. -/
def urljoin (base url : String) : String :=
  if base = "" then url
  else if url = "" then base
  else
    let b := urlparse base ""
    let r := urlparse url b.scheme
    if r.scheme ≠ b.scheme ∨ ¬ usesRelative.contains r.scheme then url
    else
      let netlocStep : String ⊕ String :=
        if usesNetloc.contains r.scheme then
          if r.netloc ≠ "" then
            Sum.inl (urlunparse ⟨r.scheme, r.netloc, r.path, r.params, r.query, r.fragment⟩)
          else Sum.inr b.netloc
        else Sum.inr r.netloc
      match netlocStep with
      | Sum.inl out => out
      | Sum.inr netloc =>
        if r.path = "" ∧ r.params = "" then
          let query := if r.query = "" then b.query else r.query
          urlunparse ⟨r.scheme, netloc, b.path, b.params, query, r.fragment⟩
        else
          let baseParts := pySplit b.path '/'
          let baseParts :=
            if baseParts.getLastD "" ≠ "" then baseParts.dropLast else baseParts
          let segments :=
            if pyStartsWith r.path "/" then pySplit r.path '/'
            else filterMiddle (baseParts ++ pySplit r.path '/')
          let resolved := resolveSegs [] segments
          let resolved :=
            if segments.getLastD "" = "." ∨ segments.getLastD "" = ".." then
              resolved ++ [""]
            else resolved
          let joined := String.intercalate "/" resolved
          let path := if joined = "" then "/" else joined
          urlunparse ⟨r.scheme, netloc, path, r.params, r.query, r.fragment⟩

/-! ### `os.path` subset (posixpath) -/

/-- CPython `posixpath.basename(p)`: everything after the last `/`. -/
def basename (p : String) : String :=
  match rfindChar '/' p.data with
  | some i => (p.data.drop (i + 1)).asString
  | none => p

/-- CPython `posixpath.splitext(p)`: split off the extension at the last
dot, unless that dot only starts a leading run of dots in the basename
(so `.pdf` has no extension). -/
def splitext (p : String) : String × String :=
  let l := p.data
  let sepIdx := rfindChar '/' l
  let dotIdx := rfindChar '.' l
  match dotIdx with
  | none => (p, "")
  | some d =>
    let dotAfterSep := match sepIdx with
      | some s => decide (s < d)
      | none => true
    if dotAfterSep then
      let start := match sepIdx with
        | some s => s + 1
        | none => 0
      if ((l.drop start).take (d - start)).any (fun c => c ≠ '.') then
        ((l.take d).asString, (l.drop d).asString)
      else (p, "")
    else (p, "")

/-! ### The crawler's pure helpers (`src/pdf_crawler.py`) -/

/-- `PDFCrawler.is_valid_url` (lines 23-26): the URL belongs to the seed's
domain, or has no netloc (relative URL). -/
def is_valid_url (domain url : String) : Bool :=
  (urlparse url "").netloc = domain ∨ (urlparse url "").netloc = ""

/-- `PDFCrawler.get_pdf_filename` (lines 28-34): basename of the URL's
path, with `.pdf` appended when the name does not already end in `.pdf`. -/
def get_pdf_filename (url : String) : String :=
  let filename := basename (urlparse url "").path
  if pyEndsWith filename ".pdf" then filename else filename ++ ".pdf"

/-- The PDF link detector of `crawl_page` line 94:
`href.lower().endswith('.pdf') or '.pdf' in href.lower()`. -/
def isPdfLink (href : String) : Bool :=
  pyEndsWith (pyLower href) ".pdf" || pyContains (pyLower href) ".pdf"

/-- The PDF response detector of `crawl_page` line 82:
`response.headers.get('Content-Type', '').startswith('application/pdf')`
(a missing header is the empty string). -/
def isPdfContentType (ct : String) : Bool :=
  pyStartsWith ct "application/pdf"

/-! ### Filename collision resolution (`download_pdf` lines 49-55)

The loop tries the derived filename first, then `f"{base}_{counter}{ext}"`
for `counter = 1, 2, ...` where `base, ext = os.path.splitext(filename)`,
until the name is not present in the output directory. -/

/-- The `counter`-th candidate filename: candidate `0` is the derived
filename itself, candidate `k ≥ 1` is `f"{base}_{k}{ext}"`. -/
def cand (filename : String) : Nat → String
  | 0 => filename
  | k + 1 =>
    (splitext filename).1 ++ "_" ++ Nat.repr (k + 1) ++ (splitext filename).2

/-- The collision `while` loop, with explicit fuel: starting at candidate
`k`, return the first candidate index whose name is not among `files`
(`none` when the fuel runs out; `findFree_mem_of_eq_none` and the
injectivity of `cand` show that fuel `files.length + 1` never does). -/
def findFree (files : List String) (c : Nat → String) : Nat → Nat → Option Nat
  | _, 0 => none
  | k, fuel + 1 => if c k ∈ files then findFree files c (k + 1) fuel else some k

/-- The resolved filename of `download_pdf`: the first collision-free
candidate. The `none` fallback is unreachable (`findFree_cand_isSome`). -/
def resolveCollision (files : List String) (filename : String) : String :=
  match findFree files (cand filename) 0 (files.length + 1) with
  | some k => cand filename k
  | none => filename

/-! ### The crawler as a state machine

The HTTP session and the HTML parser are external: an `Env` maps each URL
to the outcome of `session.get` + `raise_for_status` + parsing. `.err`
covers transport errors, timeouts and non-2xx statuses (all of which reach
the `except` clause); `.ok ct hrefs` gives the `Content-Type` header (`""`
when absent) and the `href` attributes BeautifulSoup finds in the body. -/

/-- Outcome of fetching one URL. -/
inductive FetchResult where
  | err (reason : String)
  | ok (contentType : String) (hrefs : List String)
deriving DecidableEq

/-- The external network/parser collaborators, fixed for one run. -/
def Env : Type := String → FetchResult

/-- Observable side effects, in order of occurrence. -/
inductive Event where
  | pageFetch (url : String)
  | downloadFetch (url : String)
  | fileWrite (filename : String)
deriving DecidableEq

/-- The crawler's mutable state: `visited_urls`, `downloaded_pdfs`, the
file names present in the output directory, and the event trace. -/
structure CrawlState where
  visited : List String
  downloaded : List String
  files : List String
  events : List Event
deriving DecidableEq

/-- `PDFCrawler.download_pdf` (lines 36-64). An already-downloaded URL is
skipped; otherwise the URL is fetched, and on success the resolved file is
written and the URL recorded in `downloaded_pdfs`. On error the exception
is caught (the state records only the attempted fetch); note that the URL
is added to `downloaded_pdfs` only after a successful write (line 60). -/
def download_pdf (env : Env) (s : CrawlState) (pdf_url : String) : CrawlState :=
  if pdf_url ∈ s.downloaded then s
  else
    match env pdf_url with
    | .err _ => { s with events := s.events ++ [.downloadFetch pdf_url] }
    | .ok _ _ =>
      let filename := resolveCollision s.files (get_pdf_filename pdf_url)
      { s with
        events := s.events ++ [.downloadFetch pdf_url, .fileWrite filename]
        files := s.files ++ [filename]
        downloaded := s.downloaded ++ [pdf_url] }

/-- One iteration of the link loop of `crawl_page` (lines 89-99): a link
matching the PDF detector is downloaded at its joined absolute URL; an
in-scope unvisited link is crawled one level deeper (`step`); anything
else is skipped. -/
def linkStep (env : Env) (dom : String) (step : String → CrawlState → CrawlState)
    (pageUrl href : String) (s : CrawlState) : CrawlState :=
  let full_url := urljoin pageUrl href
  if isPdfLink href then download_pdf env s full_url
  else if is_valid_url dom full_url ∧ full_url ∉ s.visited then step full_url s
  else s

/-- The link loop of `crawl_page`, threading the state left to right. -/
def crawl_links (env : Env) (dom : String) (step : String → CrawlState → CrawlState)
    (pageUrl : String) : List String → CrawlState → CrawlState
  | [], s => s
  | href :: rest, s =>
    crawl_links env dom step pageUrl rest (linkStep env dom step pageUrl href s)

/-- `PDFCrawler.crawl_page` (lines 66-102). Guards in source order: depth,
visited, scope. The URL is added to `visited_urls` before the fetch; a
fetch error is caught, leaving the visited mark in place. A PDF response
is handed to `download_pdf` (which fetches it again); an HTML response has
its links processed. `fuel` bounds the recursion depth (the Python
recursion needs none; any `fuel > max_depth - current_depth` behaves
identically, and the entry point supplies `max_depth + 1`). -/
def crawl_page (env : Env) (dom : String) (fuel max_depth current_depth : Nat)
    (url : String) (s : CrawlState) : CrawlState :=
  match fuel with
  | 0 => s
  | fuel' + 1 =>
    if current_depth > max_depth ∨ url ∈ s.visited then s
    else if ¬ is_valid_url dom url then s
    else
      let s1 : CrawlState :=
        { s with visited := s.visited ++ [url]
                 events := s.events ++ [.pageFetch url] }
      match env url with
      | .err _ => s1
      | .ok ct hrefs =>
        if isPdfContentType ct then download_pdf env s1 url
        else
          crawl_links env dom
            (fun u s' => crawl_page env dom fuel' max_depth (current_depth + 1) u s')
            url hrefs s1

/-- `PDFCrawler.start` / `__init__`: domain taken from the seed URL, both
sets empty, output directory holding `files0`, then `crawl_page(base_url,
max_depth)` from depth 0. -/
def startCrawl (env : Env) (base_url : String) (max_depth : Nat)
    (files0 : List String) : CrawlState :=
  crawl_page env (urlparse base_url "").netloc (max_depth + 1) max_depth 0
    base_url ⟨[], [], files0, []⟩

/-! ### Decimal representation

`f"{base}_{counter}{ext}"` renders the counter in decimal (`Nat.repr`).
The collision-loop termination argument needs that distinct counters give
distinct strings, which the library does not provide; we derive it from a
fuel-free description of `Nat.toDigitsCore`. -/

/-- The digit characters of `n` in base 10, most significant first. -/
def reprChars (n : Nat) : List Char :=
  if n < 10 then [Nat.digitChar n]
  else reprChars (n / 10) ++ [Nat.digitChar (n % 10)]
termination_by n
decreasing_by exact Nat.div_lt_self (by omega) (by omega)

theorem reprChars_lt (n : Nat) (h : n < 10) : reprChars n = [Nat.digitChar n] := by
  rw [reprChars, if_pos h]

theorem reprChars_ge (n : Nat) (h : ¬ n < 10) :
    reprChars n = reprChars (n / 10) ++ [Nat.digitChar (n % 10)] := by
  conv_lhs => rw [reprChars]
  rw [if_neg h]

theorem reprChars_ne_nil (n : Nat) : reprChars n ≠ [] := by
  by_cases h : n < 10
  · rw [reprChars_lt n h]
    simp
  · rw [reprChars_ge n h]
    simp

theorem toDigitsCore_eq_reprChars :
    ∀ (fuel n : Nat) (acc : List Char), n < fuel →
      Nat.toDigitsCore 10 fuel n acc = reprChars n ++ acc := by
  intro fuel
  induction fuel with
  | zero => omega
  | succ f ih =>
    intro n acc h
    have hmod : n % 10 < 10 := Nat.mod_lt _ (by omega)
    have hdm := Nat.div_add_mod n 10
    by_cases h10 : n < 10
    · have hdiv : n / 10 = 0 := Nat.div_eq_of_lt h10
      have hm : n % 10 = n := Nat.mod_eq_of_lt h10
      simp [Nat.toDigitsCore, hdiv, reprChars_lt n h10, hm]
    · have hdiv : ¬ n / 10 = 0 := by
        intro h0
        omega
      have hlt : n / 10 < f := by
        have h2 : n / 10 < n := Nat.div_lt_self (by omega) (by omega)
        omega
      simp only [Nat.toDigitsCore, hdiv, if_false]
      rw [ih (n / 10) (Nat.digitChar (n % 10) :: acc) hlt]
      rw [reprChars_ge n h10]
      simp

/-- `Nat.repr` in terms of `reprChars`. -/
theorem repr_eq_reprChars (n : Nat) : (Nat.repr n).data = reprChars n := by
  show (Nat.toDigits 10 n).asString.data = reprChars n
  unfold Nat.toDigits
  rw [toDigitsCore_eq_reprChars (n + 1) n [] (by omega)]
  simp [List.asString]

theorem repr_ne_empty (n : Nat) : (Nat.repr n).data ≠ [] := by
  rw [repr_eq_reprChars]
  exact reprChars_ne_nil n

theorem digitChar_inj_of_lt :
    ∀ a < 10, ∀ b < 10, Nat.digitChar a = Nat.digitChar b → a = b := by decide

theorem reprChars_injective : Function.Injective reprChars := by
  intro m
  induction m using Nat.strong_induction_on with
  | _ m ih =>
    intro n h
    by_cases hm : m < 10 <;> by_cases hn : n < 10
    · rw [reprChars_lt m hm, reprChars_lt n hn] at h
      exact digitChar_inj_of_lt m hm n hn (List.cons_eq_cons.mp h).1
    · exfalso
      rw [reprChars_lt m hm, reprChars_ge n hn] at h
      have hlen := congrArg List.length h
      have hne := reprChars_ne_nil (n / 10)
      cases hcase : reprChars (n / 10) with
      | nil => exact hne hcase
      | cons a l =>
        rw [hcase] at hlen
        simp [List.length_append] at hlen
    · exfalso
      rw [reprChars_ge m hm, reprChars_lt n hn] at h
      have hlen := congrArg List.length h
      have hne := reprChars_ne_nil (m / 10)
      cases hcase : reprChars (m / 10) with
      | nil => exact hne hcase
      | cons a l =>
        rw [hcase] at hlen
        simp [List.length_append] at hlen
    · rw [reprChars_ge m hm, reprChars_ge n hn] at h
      have hrev := congrArg List.reverse h
      simp only [List.reverse_append, List.reverse_cons, List.reverse_nil,
        List.nil_append, List.cons_append] at hrev
      have hd : Nat.digitChar (m % 10) = Nat.digitChar (n % 10) :=
        (List.cons_eq_cons.mp hrev).1
      have ht : reprChars (m / 10) = reprChars (n / 10) :=
        List.reverse_injective (List.cons_eq_cons.mp hrev).2
      have hmod : m % 10 = n % 10 :=
        digitChar_inj_of_lt _ (Nat.mod_lt _ (by omega)) _ (Nat.mod_lt _ (by omega)) hd
      have hdiv : m / 10 = n / 10 :=
        ih (m / 10) (Nat.div_lt_self (by omega) (by omega)) ht
      have h1 := Nat.div_add_mod m 10
      have h2 := Nat.div_add_mod n 10
      omega

theorem repr_injective : Function.Injective Nat.repr := by
  intro m n h
  exact reprChars_injective (by rw [← repr_eq_reprChars, ← repr_eq_reprChars, h])

/-! ### Correctness of the collision-resolution loop -/

theorem splitext_fst_append_snd (f : String) :
    (splitext f).1 ++ (splitext f).2 = f := by
  apply String.ext
  rw [String.data_append]
  unfold splitext
  dsimp only
  split
  · simp
  · split
    · split
      · simp [List.asString, List.take_append_drop]
      · simp
    · simp

theorem cand_zero (f : String) : cand f 0 = f := rfl

theorem cand_succ (f : String) (k : Nat) :
    cand f (k + 1) =
      (splitext f).1 ++ "_" ++ Nat.repr (k + 1) ++ (splitext f).2 := rfl

theorem cand_injective (f : String) : Function.Injective (cand f) := by
  have hlen : ∀ k : Nat, f.data.length < (cand f (k + 1)).data.length := by
    intro k
    have hrepr := repr_ne_empty (k + 1)
    have hsplit := splitext_fst_append_snd f
    have hdata : (splitext f).1.data ++ (splitext f).2.data = f.data := by
      rw [← String.data_append, hsplit]
    rw [cand_succ]
    simp only [String.data_append]
    have : 0 < (Nat.repr (k + 1)).data.length := by
      cases hc : (Nat.repr (k + 1)).data with
      | nil => exact absurd hc hrepr
      | cons a l => simp
    have hflen : f.data.length =
        (splitext f).1.data.length + (splitext f).2.data.length := by
      rw [← hdata, List.length_append]
    simp only [List.length_append]
    have : ("_" : String).data.length = 1 := rfl
    omega
  intro i j h
  match i, j with
  | 0, 0 => rfl
  | 0, j + 1 =>
    exfalso
    have hl := hlen j
    rw [cand_zero] at h
    rw [← h] at hl
    exact Nat.lt_irrefl _ hl
  | i + 1, 0 =>
    exfalso
    have hl := hlen i
    rw [cand_zero] at h
    rw [h] at hl
    exact Nat.lt_irrefl _ hl
  | i + 1, j + 1 =>
    rw [cand_succ, cand_succ] at h
    have hdata := congrArg String.data h
    simp only [String.data_append] at hdata
    have h2 := List.append_cancel_right hdata
    rw [List.append_assoc, List.append_assoc] at h2
    have h3 := List.append_cancel_left (List.append_cancel_left h2)
    have : Nat.repr (i + 1) = Nat.repr (j + 1) := String.ext h3
    have := repr_injective this
    omega

theorem findFree_eq_some (files : List String) (c : Nat → String) :
    ∀ (fuel start k : Nat), findFree files c start fuel = some k →
      c k ∉ files ∧ start ≤ k ∧ ∀ j, start ≤ j → j < k → c j ∈ files := by
  intro fuel
  induction fuel with
  | zero => intro start k h; simp [findFree] at h
  | succ f ih =>
    intro start k h
    rw [findFree] at h
    by_cases hmem : c start ∈ files
    · rw [if_pos hmem] at h
      obtain ⟨hfree, hle, hall⟩ := ih (start + 1) k h
      refine ⟨hfree, by omega, ?_⟩
      intro j hj1 hj2
      rcases Nat.eq_or_lt_of_le hj1 with heq | hlt
      · rwa [← heq]
      · exact hall j hlt hj2
    · rw [if_neg hmem] at h
      cases h
      exact ⟨hmem, Nat.le_refl _, fun j hj1 hj2 => by omega⟩

theorem findFree_none_mem (files : List String) (c : Nat → String) :
    ∀ (fuel start : Nat), findFree files c start fuel = none →
      ∀ j, start ≤ j → j < start + fuel → c j ∈ files := by
  intro fuel
  induction fuel with
  | zero => intro start h j hj1 hj2; omega
  | succ f ih =>
    intro start h j hj1 hj2
    rw [findFree] at h
    by_cases hmem : c start ∈ files
    · rw [if_pos hmem] at h
      rcases Nat.eq_or_lt_of_le hj1 with heq | hlt
      · rwa [← heq]
      · exact ih (start + 1) h j hlt (by omega)
    · rw [if_neg hmem] at h
      cases h

/-- The fuel `files.length + 1` always suffices: were every candidate
`0, ..., files.length` taken, the `files.length + 1` pairwise-distinct
candidate names would all lie in `files`. -/
theorem findFree_cand_isSome (files : List String) (f : String) :
    (findFree files (cand f) 0 (files.length + 1)).isSome = true := by
  cases hr : findFree files (cand f) 0 (files.length + 1) with
  | some k => rfl
  | none =>
    exfalso
    have hall := findFree_none_mem files (cand f) (files.length + 1) 0 hr
    set L := (List.range (files.length + 1)).map (cand f) with hL
    have hnodup : L.Nodup :=
      (List.nodup_range _).map (cand_injective f)
    have hsub : L.toFinset ⊆ files.toFinset := by
      intro a ha
      rw [List.mem_toFinset] at ha ⊢
      rw [hL, List.mem_map] at ha
      obtain ⟨j, hj, rfl⟩ := ha
      rw [List.mem_range] at hj
      exact hall j (by omega) (by omega)
    have hcard1 : L.toFinset.card = files.length + 1 := by
      rw [List.toFinset_card_of_nodup hnodup, hL, List.length_map,
        List.length_range]
    have hcard2 : files.toFinset.card ≤ files.length :=
      List.toFinset_card_le files
    have := Finset.card_le_card hsub
    omega

/-- What `resolveCollision` returns: the candidate of least index that is
not already a file name. -/
theorem resolveCollision_spec (files : List String) (f : String) :
    ∃ k, resolveCollision files f = cand f k ∧ cand f k ∉ files ∧
      ∀ j, j < k → cand f j ∈ files := by
  have hsome := findFree_cand_isSome files f
  cases hr : findFree files (cand f) 0 (files.length + 1) with
  | none => rw [hr] at hsome; simp at hsome
  | some k =>
    obtain ⟨hfree, _, hall⟩ := findFree_eq_some files (cand f) _ _ _ hr
    refine ⟨k, ?_, hfree, fun j hj => hall j (by omega) hj⟩
    unfold resolveCollision
    rw [hr]

/-! ### Structural lemmas about the crawler -/

theorem download_pdf_visited (env : Env) (s : CrawlState) (u : String) :
    (download_pdf env s u).visited = s.visited := by
  unfold download_pdf
  by_cases h : u ∈ s.downloaded
  · rw [if_pos h]
  · rw [if_neg h]
    cases env u <;> rfl

theorem download_pdf_no_pageFetch (env : Env) (s : CrawlState) (u v : String) :
    Event.pageFetch v ∈ (download_pdf env s u).events →
      Event.pageFetch v ∈ s.events := by
  unfold download_pdf
  by_cases h : u ∈ s.downloaded
  · rw [if_pos h]
    exact id
  · rw [if_neg h]
    cases env u with
    | err r =>
      intro hm
      rcases List.mem_append.mp hm with hm | hm
      · exact hm
      · simp at hm
    | ok ct hrefs =>
      intro hm
      rcases List.mem_append.mp hm with hm | hm
      · exact hm
      · simp at hm

theorem crawl_page_zero (env : Env) (dom : String) (m d : Nat) (u : String)
    (s : CrawlState) : crawl_page env dom 0 m d u s = s := by
  rw [crawl_page]

/-- The three entry guards of `crawl_page`: exceeded depth, already
visited, or out of scope each make the call return the state untouched,
whatever the fuel. -/
theorem crawl_page_guard (env : Env) (dom : String) (fuel m d : Nat)
    (u : String) (s : CrawlState)
    (h : m < d ∨ u ∈ s.visited ∨ is_valid_url dom u = false) :
    crawl_page env dom fuel m d u s = s := by
  cases fuel with
  | zero => rw [crawl_page]
  | succ f =>
    rw [crawl_page]
    rcases h with h | h | h
    · rw [if_pos (Or.inl h)]
    · rw [if_pos (Or.inr h)]
    · by_cases h1 : d > m ∨ u ∈ s.visited
      · rw [if_pos h1]
      · rw [if_neg h1, if_pos (by simp [h])]

theorem linkStep_visited_mono (env : Env) (dom : String)
    (step : String → CrawlState → CrawlState) (purl href : String)
    (s : CrawlState) (hstep : ∀ u t, t.visited <+: (step u t).visited) :
    s.visited <+: (linkStep env dom step purl href s).visited := by
  unfold linkStep
  dsimp only
  by_cases hp : isPdfLink href = true
  · rw [if_pos hp, download_pdf_visited]
  · rw [if_neg hp]
    by_cases hv : is_valid_url dom (urljoin purl href) = true ∧
        urljoin purl href ∉ s.visited
    · rw [if_pos hv]
      exact hstep _ _
    · rw [if_neg hv]

theorem crawl_links_visited_mono (env : Env) (dom : String)
    (step : String → CrawlState → CrawlState) (purl : String)
    (hstep : ∀ u t, t.visited <+: (step u t).visited) :
    ∀ (hrefs : List String) (s : CrawlState),
      s.visited <+: (crawl_links env dom step purl hrefs s).visited := by
  intro hrefs
  induction hrefs with
  | nil =>
    intro s
    rw [crawl_links]
  | cons h t ih =>
    intro s
    rw [crawl_links]
    exact (linkStep_visited_mono env dom step purl h s hstep).trans (ih _)

theorem crawl_page_visited_mono (env : Env) (dom : String) :
    ∀ (fuel m d : Nat) (u : String) (s : CrawlState),
      s.visited <+: (crawl_page env dom fuel m d u s).visited := by
  intro fuel
  induction fuel with
  | zero =>
    intro m d u s
    rw [crawl_page]
  | succ f ih =>
    intro m d u s
    rw [crawl_page]
    by_cases h1 : d > m ∨ u ∈ s.visited
    · rw [if_pos h1]
    · rw [if_neg h1]
      by_cases h2 : ¬ is_valid_url dom u = true
      · rw [if_pos h2]
      · rw [if_neg h2]
        dsimp only
        have hpre : s.visited <+: s.visited ++ [u] := ⟨[u], rfl⟩
        cases henv : env u with
        | err r => exact hpre
        | ok ct hrefs =>
          dsimp only
          by_cases hct : isPdfContentType ct = true
          · rw [if_pos hct]
            refine hpre.trans ?_
            rw [download_pdf_visited]
          · rw [if_neg hct]
            exact hpre.trans
              (crawl_links_visited_mono env dom _ u
                (fun u' t => ih m (d + 1) u' t) hrefs
                { s with visited := s.visited ++ [u]
                         events := s.events ++ [Event.pageFetch u] })

theorem linkStep_no_pageFetch (env : Env) (dom : String)
    (step : String → CrawlState → CrawlState) (purl href : String)
    (hstep : ∀ u t, step u t = t) (s : CrawlState) (v : String) :
    Event.pageFetch v ∈ (linkStep env dom step purl href s).events →
      Event.pageFetch v ∈ s.events := by
  unfold linkStep
  dsimp only
  by_cases hp : isPdfLink href = true
  · rw [if_pos hp]
    exact download_pdf_no_pageFetch env s _ v
  · rw [if_neg hp]
    by_cases hv : is_valid_url dom (urljoin purl href) = true ∧
        urljoin purl href ∉ s.visited
    · rw [if_pos hv, hstep]
      exact id
    · rw [if_neg hv]
      exact id

theorem crawl_links_no_pageFetch (env : Env) (dom : String)
    (step : String → CrawlState → CrawlState) (purl : String)
    (hstep : ∀ u t, step u t = t) :
    ∀ (hrefs : List String) (s : CrawlState) (v : String),
      Event.pageFetch v ∈ (crawl_links env dom step purl hrefs s).events →
        Event.pageFetch v ∈ s.events := by
  intro hrefs
  induction hrefs with
  | nil =>
    intro s v
    rw [crawl_links]
    exact id
  | cons h t ih =>
    intro s v hm
    rw [crawl_links] at hm
    exact linkStep_no_pageFetch env dom step purl h hstep s v (ih _ v hm)

/-! ### Concrete environments used by witnesses and counterexamples -/

/-- An environment in which every fetch fails. -/
def envAllErr : Env := fun _ => FetchResult.err "timeout"

/-- A seed page that links the same (failing) PDF twice. -/
def envTwicePdf : Env := fun u =>
  if u = "http://a.com/" then FetchResult.ok "text/html" ["x.pdf", "x.pdf"]
  else FetchResult.err "500"

/-! ### The claims -/

/-- C2: a URL that is already visited — and likewise one whose depth
exceeds `max_depth` or that is out of scope — makes `crawl_page` a no-op:
the state (hence `visited_urls`, `downloaded_pdfs`, the directory and the
event trace) is returned unchanged, so no network fetch happens.  When the
guards pass, the URL is in `visited_urls` of the final state whatever the
environment does — it is claimed before any network I/O.  (The guard
order depth / visited / scope is the source order in `crawl_page`
lines 68-72; each single guard condition is sufficient for the no-op.) -/
theorem claim_C2_guards_noop_and_visited_first (env : Env) (dom : String)
    (fuel m d : Nat) (u : String) (s : CrawlState) :
    ((m < d ∨ u ∈ s.visited ∨ is_valid_url dom u = false) →
      crawl_page env dom fuel m d u s = s) ∧
    (d ≤ m → u ∉ s.visited → is_valid_url dom u = true →
      u ∈ (crawl_page env dom (fuel + 1) m d u s).visited) := by
  constructor
  · exact crawl_page_guard env dom fuel m d u s
  · intro hd hv hval
    rw [crawl_page]
    rw [if_neg (by push_neg; exact ⟨by omega, hv⟩)]
    rw [if_neg (by simp [hval])]
    dsimp only
    cases henv : env u with
    | err r => simp
    | ok ct hrefs =>
      dsimp only
      by_cases hct : isPdfContentType ct = true
      · rw [if_pos hct]
        rw [download_pdf_visited]
        simp
      · rw [if_neg hct]
        have hpre := crawl_links_visited_mono env dom
          (fun u' s' => crawl_page env dom fuel m (d + 1) u' s') u
          (fun u' t => crawl_page_visited_mono env dom fuel m (d + 1) u' t)
          hrefs
          { s with visited := s.visited ++ [u]
                   events := s.events ++ [Event.pageFetch u] }
        exact hpre.subset (by simp)

/-- C2 witness: an already-visited URL is a no-op, and after a fresh crawl
of an in-scope URL (here against an all-failing network) the URL is
visited. -/
theorem claim_C2_witness :
    crawl_page envAllErr "a.com" 5 3 0 "http://a.com/"
        ⟨["http://a.com/"], [], [], []⟩ = ⟨["http://a.com/"], [], [], []⟩ ∧
    "http://a.com/" ∈
      (crawl_page envAllErr "a.com" 1 3 0 "http://a.com/" ⟨[], [], [], []⟩).visited :=
  ⟨(claim_C2_guards_noop_and_visited_first envAllErr "a.com" 5 3 0 _ _).1
      (Or.inr (Or.inl (by decide))),
   (claim_C2_guards_noop_and_visited_first envAllErr "a.com" 0 3 0 _ _).2
      (by omega) (by decide) (by decide)⟩

/-- C1, counterexample to the downloaded half of the claim: against
`envTwicePdf`, fetching `http://a.com/x.pdf` fails, yet when the seed page
links it twice the crawl fetches it twice — the failed URL is *not*
permanently skipped, because `download_pdf` records a URL in
`downloaded_pdfs` only after a successful save. -/
theorem claim_C1_counterexample :
    envTwicePdf "http://a.com/x.pdf" = FetchResult.err "500" ∧
    (crawl_page envTwicePdf "a.com" 2 3 0 "http://a.com/"
        ⟨[], [], [], []⟩).events =
      [Event.pageFetch "http://a.com/",
       Event.downloadFetch "http://a.com/x.pdf",
       Event.downloadFetch "http://a.com/x.pdf"] := by
  constructor
  · rfl
  · decide

/-- C1 as amended: every fetch error is caught where it occurs (the
functions return an ordinary state, recording only the attempted fetch).
For page crawls the URL is put in `visited_urls` before the fetch and is
not rolled back on error, so crawling it again in the same run is a no-op.
For downloads, however, a failed URL is *not* recorded in
`downloaded_pdfs` (insertion happens only after a successful write), so a
second `download_pdf` of the same URL fetches it again. -/
theorem claim_C1_error_handling_amended :
    (∀ (env : Env) (dom : String) (fuel m d : Nat) (url : String)
        (s : CrawlState) (reason : String),
      d ≤ m → url ∉ s.visited → is_valid_url dom url = true →
      env url = FetchResult.err reason →
      crawl_page env dom (fuel + 1) m d url s =
        { s with visited := s.visited ++ [url]
                 events := s.events ++ [Event.pageFetch url] } ∧
      ∀ (fuel2 m2 d2 : Nat),
        crawl_page env dom fuel2 m2 d2 url
          { s with visited := s.visited ++ [url]
                   events := s.events ++ [Event.pageFetch url] } =
        { s with visited := s.visited ++ [url]
                 events := s.events ++ [Event.pageFetch url] }) ∧
    (∀ (env : Env) (s : CrawlState) (u reason : String),
      env u = FetchResult.err reason → u ∉ s.downloaded →
      download_pdf env s u =
        { s with events := s.events ++ [Event.downloadFetch u] } ∧
      u ∉ (download_pdf env s u).downloaded ∧
      (download_pdf env (download_pdf env s u) u).events =
        s.events ++ [Event.downloadFetch u, Event.downloadFetch u]) := by
  constructor
  · intro env dom fuel m d url s reason hd hv hval henv
    have hfirst : crawl_page env dom (fuel + 1) m d url s =
        { s with visited := s.visited ++ [url]
                 events := s.events ++ [Event.pageFetch url] } := by
      rw [crawl_page]
      rw [if_neg (by push_neg; exact ⟨by omega, hv⟩)]
      rw [if_neg (by simp [hval])]
      dsimp only
      rw [henv]
    refine ⟨hfirst, ?_⟩
    intro fuel2 m2 d2
    exact crawl_page_guard env dom fuel2 m2 d2 url _
      (Or.inr (Or.inl (by simp)))
  · intro env s u reason henv hd
    have hfirst : download_pdf env s u =
        { s with events := s.events ++ [Event.downloadFetch u] } := by
      unfold download_pdf
      rw [if_neg hd, henv]
    refine ⟨hfirst, ?_, ?_⟩
    · rw [hfirst]
      exact hd
    · rw [hfirst]
      unfold download_pdf
      rw [if_neg hd, henv]
      simp

/-- C1 witness for the amended statement, at a concrete failing URL. -/
theorem claim_C1_witness :
    crawl_page envAllErr "a.com" 1 3 0 "http://a.com/" ⟨[], [], [], []⟩ =
      ⟨["http://a.com/"], [], [], [Event.pageFetch "http://a.com/"]⟩ ∧
    (download_pdf envAllErr ⟨[], [], [], []⟩ "http://a.com/x.pdf").events =
      [Event.downloadFetch "http://a.com/x.pdf"] :=
  ⟨((claim_C1_error_handling_amended.1 envAllErr "a.com" 0 3 0 "http://a.com/"
      ⟨[], [], [], []⟩ "timeout" (by omega) (by decide) (by decide) rfl).1),
   by
    rw [(claim_C1_error_handling_amended.2 envAllErr ⟨[], [], [], []⟩
      "http://a.com/x.pdf" "timeout" rfl (by decide)).1]
    rfl⟩

/-- An environment in which every fetch succeeds with a PDF payload. -/
def envAllPdf : Env := fun _ => FetchResult.ok "application/pdf" []

/-- A recursion step that would be observable if it were ever invoked. -/
def junkStep : String → CrawlState → CrawlState :=
  fun _ _ => ⟨["JUNK"], [], [], []⟩

/-- C3: downloading the same PDF URL twice writes exactly one file: a
first successful `download_pdf` appends exactly one name to the output
directory, records the URL in `downloaded_pdfs`, and a second invocation
returns the state unchanged — no fetch event and no write event are
added. -/
theorem claim_C3_download_idempotent (env : Env) (s : CrawlState)
    (u ct : String) (hrefs : List String)
    (hd : u ∉ s.downloaded) (henv : env u = FetchResult.ok ct hrefs) :
    (download_pdf env s u).files =
      s.files ++ [resolveCollision s.files (get_pdf_filename u)] ∧
    (download_pdf env s u).events =
      s.events ++ [Event.downloadFetch u,
        Event.fileWrite (resolveCollision s.files (get_pdf_filename u))] ∧
    u ∈ (download_pdf env s u).downloaded ∧
    download_pdf env (download_pdf env s u) u = download_pdf env s u := by
  have hstate : download_pdf env s u =
      { s with
        events := s.events ++ [Event.downloadFetch u,
          Event.fileWrite (resolveCollision s.files (get_pdf_filename u))]
        files := s.files ++ [resolveCollision s.files (get_pdf_filename u)]
        downloaded := s.downloaded ++ [u] } := by
    unfold download_pdf
    rw [if_neg hd, henv]
  refine ⟨by rw [hstate], by rw [hstate], by rw [hstate]; simp, ?_⟩
  conv_lhs => rw [hstate]
  conv_lhs => rw [download_pdf]
  rw [if_pos (by simp)]
  rw [hstate]

/-- C3 witness: a concrete first download writes `doc.pdf`; the second
invocation is a no-op. -/
theorem claim_C3_witness :
    (download_pdf envAllPdf ⟨[], [], [], []⟩ "http://a.com/doc.pdf").files =
      [] ++ [resolveCollision [] (get_pdf_filename "http://a.com/doc.pdf")] ∧
    resolveCollision [] (get_pdf_filename "http://a.com/doc.pdf") = "doc.pdf" ∧
    download_pdf envAllPdf
        (download_pdf envAllPdf ⟨[], [], [], []⟩ "http://a.com/doc.pdf")
        "http://a.com/doc.pdf" =
      download_pdf envAllPdf ⟨[], [], [], []⟩ "http://a.com/doc.pdf" :=
  ⟨(claim_C3_download_idempotent envAllPdf ⟨[], [], [], []⟩ "http://a.com/doc.pdf"
      "application/pdf" [] (by decide) rfl).1,
   by decide,
   (claim_C3_download_idempotent envAllPdf ⟨[], [], [], []⟩ "http://a.com/doc.pdf"
      "application/pdf" [] (by decide) rfl).2.2.2⟩

/-- C4: a discovered link whose joined URL is out of scope is never
recursed into: the per-link step either downloads it (when the raw `href`
matches the PDF detector — with no recheck of the PDF's own domain) or
leaves the state untouched; the recursion continuation is never invoked. -/
theorem claim_C4_offdomain_links (env : Env) (dom : String)
    (step : String → CrawlState → CrawlState) (url href : String)
    (s : CrawlState)
    (hscope : is_valid_url dom (urljoin url href) = false) :
    linkStep env dom step url href s =
      (if isPdfLink href = true then download_pdf env s (urljoin url href)
       else s) := by
  unfold linkStep
  dsimp only
  by_cases hp : isPdfLink href = true
  · rw [if_pos hp, if_pos hp]
  · rw [if_neg hp, if_neg hp, if_neg (by simp [hscope])]

/-- C4 witness: a link to `https://other.example.com/x.pdf` found on
`http://a.com/` is out of scope, is downloaded anyway (the download even
succeeds against `envAllPdf`), and the recursion step is never taken. -/
theorem claim_C4_witness :
    is_valid_url "a.com"
        (urljoin "http://a.com/" "https://other.example.com/x.pdf") = false ∧
    linkStep envAllPdf "a.com" junkStep "http://a.com/"
        "https://other.example.com/x.pdf" ⟨[], [], [], []⟩ =
      download_pdf envAllPdf ⟨[], [], [], []⟩
        "https://other.example.com/x.pdf" ∧
    "https://other.example.com/x.pdf" ∈
      (linkStep envAllPdf "a.com" junkStep "http://a.com/"
        "https://other.example.com/x.pdf" ⟨[], [], [], []⟩).downloaded :=
  ⟨by decide,
   by
    rw [claim_C4_offdomain_links envAllPdf "a.com" junkStep "http://a.com/"
      "https://other.example.com/x.pdf" ⟨[], [], [], []⟩ (by decide)]
    rw [if_pos (by decide)]
    rfl,
   by decide⟩

/-- C5: the link dispatch downloads exactly the links matching the PDF
detector and recurses (at most) into the others; a raw `href` matches the
detector iff its lower-cased text contains `.pdf` as a substring (the
case-insensitive `.pdf`-suffix test is subsumed by the containment test);
a fetched page is classified as a PDF iff its content-type header starts
with `application/pdf`; and under the entry guards `crawl_page` dispatches
a fetched page on exactly that content-type test. -/
theorem claim_C5_pdf_detector (env : Env) (dom : String)
    (step : String → CrawlState → CrawlState) (url href ct : String)
    (s : CrawlState) :
    (linkStep env dom step url href s =
      if isPdfLink href = true then download_pdf env s (urljoin url href)
      else
        if is_valid_url dom (urljoin url href) = true ∧
            urljoin url href ∉ s.visited
        then step (urljoin url href) s
        else s) ∧
    (isPdfLink href = true ↔ ".pdf".data <:+: (pyLower href).data) ∧
    (isPdfContentType ct = true ↔ "application/pdf".data <+: ct.data) ∧
    (∀ (fuel m d : Nat) (hrefs : List String),
      env url = FetchResult.ok ct hrefs → d ≤ m → url ∉ s.visited →
      is_valid_url dom url = true →
      crawl_page env dom (fuel + 1) m d url s =
        if isPdfContentType ct = true then
          download_pdf env
            { s with visited := s.visited ++ [url]
                     events := s.events ++ [Event.pageFetch url] } url
        else
          crawl_links env dom
            (fun v t => crawl_page env dom fuel m (d + 1) v t) url hrefs
            { s with visited := s.visited ++ [url]
                     events := s.events ++ [Event.pageFetch url] }) := by
  refine ⟨rfl, ?_, ?_, ?_⟩
  · unfold isPdfLink pyEndsWith pyContains
    simp only [Bool.or_eq_true, decide_eq_true_eq]
    constructor
    · intro h
      rcases h with h | h
      · exact h.isInfix
      · exact h
    · intro h
      exact Or.inr h
  · unfold isPdfContentType pyStartsWith
    simp only [decide_eq_true_eq]
  · intro fuel m d hrefs henv hd hv hval
    rw [crawl_page]
    rw [if_neg (by push_neg; exact ⟨by omega, hv⟩)]
    rw [if_neg (by simp [hval])]
    dsimp only
    rw [henv]

/-- C5 witness: the permissive detector accepts a query-string variant and
an upper-case name, rejects a plain page; the content-type test accepts a
parameterised `application/pdf` header; the crawl of a concrete HTML page
dispatches to its link loop. -/
theorem claim_C5_witness :
    isPdfLink "file.pdf?v=2" = true ∧
    isPdfLink "DOC.PDF" = true ∧
    isPdfLink "page2.html" = false ∧
    isPdfContentType "application/pdf;charset=binary" = true ∧
    crawl_page envTwicePdf "a.com" 1 3 0 "http://a.com/" ⟨[], [], [], []⟩ =
      crawl_links envTwicePdf "a.com"
        (fun v t => crawl_page envTwicePdf "a.com" 0 3 1 v t)
        "http://a.com/" ["x.pdf", "x.pdf"]
        ⟨["http://a.com/"], [], [], [Event.pageFetch "http://a.com/"]⟩ :=
  ⟨(claim_C5_pdf_detector envAllPdf "x" junkStep "x" "file.pdf?v=2" "x"
      ⟨[], [], [], []⟩).2.1.mpr (by decide),
   (claim_C5_pdf_detector envAllPdf "x" junkStep "x" "DOC.PDF" "x"
      ⟨[], [], [], []⟩).2.1.mpr (by decide),
   by decide,
   (claim_C5_pdf_detector envAllPdf "x" junkStep "x" "x"
      "application/pdf;charset=binary" ⟨[], [], [], []⟩).2.2.1.mpr (by decide),
   by
    rw [(claim_C5_pdf_detector envTwicePdf "a.com" junkStep "http://a.com/"
      "unused" "text/html" ⟨[], [], [], []⟩).2.2.2 0 3 0 ["x.pdf", "x.pdf"]
      rfl (by omega) (by decide) (by decide)]
    rw [if_neg (by decide)]
    rfl⟩

/-- A seed page with one in-scope HTML link, failing elsewhere. -/
def envSeedLinks : Env := fun u =>
  if u = "http://a.com/" then FetchResult.ok "text/html" ["page2.html"]
  else FetchResult.err "404"

/-- C6: with `max_depth = 0` the only page fetch the crawl can perform is
the seed itself: every `pageFetch` event of the final state was either
already in the trace or names the seed.  (PDF links found on the seed are
still downloaded; those are `downloadFetch` events, not page crawls.) -/
theorem claim_C6_depth_zero (env : Env) (dom : String) (fuel : Nat)
    (seed : String) (s : CrawlState) (u : String) :
    Event.pageFetch u ∈ (crawl_page env dom fuel 0 0 seed s).events →
      Event.pageFetch u ∈ s.events ∨ u = seed := by
  cases fuel with
  | zero =>
    intro h
    rw [crawl_page] at h
    exact Or.inl h
  | succ f =>
    intro h
    rw [crawl_page] at h
    by_cases h1 : 0 > 0 ∨ seed ∈ s.visited
    · rw [if_pos h1] at h
      exact Or.inl h
    · rw [if_neg h1] at h
      by_cases h2 : ¬ is_valid_url dom seed = true
      · rw [if_pos h2] at h
        exact Or.inl h
      · rw [if_neg h2] at h
        dsimp only at h
        cases henv : env seed with
        | err r =>
          rw [henv] at h
          dsimp only at h
          rcases List.mem_append.mp h with h | h
          · exact Or.inl h
          · simp at h
            exact Or.inr h
        | ok ct hrefs =>
          rw [henv] at h
          dsimp only at h
          by_cases hct : isPdfContentType ct = true
          · rw [if_pos hct] at h
            have h' := download_pdf_no_pageFetch env _ seed u h
            dsimp only at h'
            rcases List.mem_append.mp h' with h' | h'
            · exact Or.inl h'
            · simp at h'
              exact Or.inr h'
          · rw [if_neg hct] at h
            have hstep : ∀ (v : String) (t : CrawlState),
                crawl_page env dom f 0 (0 + 1) v t = t := fun v t =>
              crawl_page_guard env dom f 0 1 v t (Or.inl (by omega))
            have h' := crawl_links_no_pageFetch env dom
              (fun v t => crawl_page env dom f 0 (0 + 1) v t) seed hstep
              hrefs _ u h
            dsimp only at h'
            rcases List.mem_append.mp h' with h' | h'
            · exact Or.inl h'
            · simp at h'
              exact Or.inr h'

/-- C6 witness: a seed page that does contain an in-scope link, crawled
with `max_depth = 0` and enough fuel for a recursion that the depth guard
must cut off; the linked page is never fetched. -/
theorem claim_C6_witness :
    Event.pageFetch "http://a.com/" ∈
      (crawl_page envSeedLinks "a.com" 2 0 0 "http://a.com/"
        ⟨[], [], [], []⟩).events ∧
    Event.pageFetch "http://a.com/page2.html" ∉
      (crawl_page envSeedLinks "a.com" 2 0 0 "http://a.com/"
        ⟨[], [], [], []⟩).events ∧
    (Event.pageFetch "http://a.com/" ∈ ([] : List Event) ∨
      "http://a.com/" = "http://a.com/") :=
  ⟨by decide, by decide,
   claim_C6_depth_zero envSeedLinks "a.com" 2 "http://a.com/" ⟨[], [], [], []⟩
     "http://a.com/" (by decide)⟩

/-- C7: collision resolution, for any derived filename whose `splitext`
decomposition is `(b, ".pdf")` (as for `report.pdf`): a free filename is
kept as is; when the filename and the suffixed names `b_1.pdf ... b_(k-1).pdf`
are all taken and `b_k.pdf` is free, `b_k.pdf` is chosen — the smallest
such `k`; and the chosen name never collides with an existing file, so no
file is overwritten. -/
theorem claim_C7_collision_suffix (files : List String) (b f : String)
    (hsplit : splitext f = (b, ".pdf")) :
    (f ∉ files → resolveCollision files f = f) ∧
    (∀ k, 1 ≤ k → f ∈ files →
      (∀ j, 1 ≤ j → j < k → b ++ "_" ++ Nat.repr j ++ ".pdf" ∈ files) →
      b ++ "_" ++ Nat.repr k ++ ".pdf" ∉ files →
      resolveCollision files f = b ++ "_" ++ Nat.repr k ++ ".pdf") ∧
    resolveCollision files f ∉ files := by
  obtain ⟨kmin, hres, hfree, hlt⟩ := resolveCollision_spec files f
  have hcand : ∀ j, 1 ≤ j → cand f j = b ++ "_" ++ Nat.repr j ++ ".pdf" := by
    intro j hj
    match j, hj with
    | j + 1, _ =>
      rw [cand_succ, hsplit]
  refine ⟨?_, ?_, ?_⟩
  · intro hnot
    cases hz : kmin with
    | zero =>
      rw [hz, cand_zero] at hres
      exact hres
    | succ km =>
      exfalso
      have h0 : cand f 0 ∈ files := hlt 0 (by omega)
      rw [cand_zero] at h0
      exact hnot h0
  · intro k hk1 hmem hprev hknot
    have hkm : kmin = k := by
      rcases Nat.lt_trichotomy kmin k with hc | hc | hc
      · exfalso
        have hin : cand f kmin ∈ files := by
          match hz : kmin with
          | 0 =>
            rw [cand_zero]
            exact hmem
          | km + 1 =>
            rw [hcand (km + 1) (by omega)]
            exact hprev (km + 1) (by omega) (by omega)
        exact hfree hin
      · exact hc
      · exfalso
        have hin : cand f k ∈ files := hlt k hc
        rw [hcand k hk1] at hin
        exact hknot hin
    rw [hkm] at hres
    rw [hres, hcand k hk1]
  · rw [hres]
    exact hfree

/-- C7 witness: with `report.pdf` and `report_1.pdf` present, a resource
deriving `report.pdf` is saved as `report_2.pdf`. -/
theorem claim_C7_witness :
    splitext "report.pdf" = ("report", ".pdf") ∧
    resolveCollision ["report.pdf", "report_1.pdf"] "report.pdf" =
      "report" ++ "_" ++ Nat.repr 2 ++ ".pdf" ∧
    "report" ++ "_" ++ Nat.repr 2 ++ ".pdf" = "report_2.pdf" :=
  ⟨by decide,
   (claim_C7_collision_suffix ["report.pdf", "report_1.pdf"] "report"
      "report.pdf" (by decide)).2.1 2 (by omega) (by decide)
     (fun j h1 h2 => by
        have hj : j = 1 := by omega
        subst hj
        decide)
     (by decide),
   by decide⟩

/-- C8: for every finite list of existing files the collision loop
terminates — fuel `files.length + 1` already finds a candidate index whose
name is free, and the resolved name is not among the existing files. -/
theorem claim_C8_collision_terminates (files : List String) (f : String) :
    (findFree files (cand f) 0 (files.length + 1)).isSome = true ∧
    resolveCollision files f ∉ files := by
  refine ⟨findFree_cand_isSome files f, ?_⟩
  obtain ⟨k, hres, hfree, _⟩ := resolveCollision_spec files f
  rw [hres]
  exact hfree

/-- C9: the derived filename is the basename of the URL's path, with
`.pdf` appended exactly when the basename does not already end in `.pdf`;
an empty basename yields the filename `.pdf`. -/
theorem claim_C9_derived_filename (url : String) :
    (pyEndsWith (basename (urlparse url "").path) ".pdf" = true →
      get_pdf_filename url = basename (urlparse url "").path) ∧
    (pyEndsWith (basename (urlparse url "").path) ".pdf" = false →
      get_pdf_filename url = basename (urlparse url "").path ++ ".pdf") ∧
    (basename (urlparse url "").path = "" → get_pdf_filename url = ".pdf") := by
  refine ⟨?_, ?_, ?_⟩
  · intro h
    unfold get_pdf_filename
    dsimp only
    rw [if_pos h]
  · intro h
    unfold get_pdf_filename
    dsimp only
    rw [if_neg (by simp [h])]
  · intro h
    unfold get_pdf_filename
    dsimp only
    rw [h, if_neg (by decide)]
    decide

/-- C9 witness: `https://site.com/docs/` has an empty path basename and
derives the filename `.pdf`. -/
theorem claim_C9_witness :
    basename (urlparse "https://site.com/docs/" "").path = "" ∧
    get_pdf_filename "https://site.com/docs/" = ".pdf" :=
  ⟨by decide, (claim_C9_derived_filename "https://site.com/docs/").2.2 (by decide)⟩

/-- C10: the `.pdf` test of `get_pdf_filename` is case-sensitive: the
basename is returned unchanged iff it ends in lowercase `.pdf` exactly;
otherwise `.pdf` is appended — so `DOC.PDF` becomes `DOC.PDF.pdf` even
though the link detector (case-insensitive) accepts `DOC.PDF`. -/
theorem claim_C10_case_sensitive_suffix (url : String) :
    (get_pdf_filename url = basename (urlparse url "").path ↔
      pyEndsWith (basename (urlparse url "").path) ".pdf" = true) ∧
    (pyEndsWith (basename (urlparse url "").path) ".pdf" = false →
      get_pdf_filename url = basename (urlparse url "").path ++ ".pdf") ∧
    get_pdf_filename "https://x.com/DOC.PDF" = "DOC.PDF.pdf" ∧
    isPdfLink "DOC.PDF" = true := by
  refine ⟨⟨?_, ?_⟩, ?_, by decide, by decide⟩
  · intro h
    by_cases he : pyEndsWith (basename (urlparse url "").path) ".pdf" = true
    · exact he
    · exfalso
      unfold get_pdf_filename at h
      dsimp only at h
      rw [if_neg (by simp [he])] at h
      have hl := congrArg String.length h
      rw [String.length_append] at hl
      have h4 : (".pdf" : String).length = 4 := rfl
      omega
  · intro he
    unfold get_pdf_filename
    dsimp only
    rw [if_pos he]
  · intro he
    unfold get_pdf_filename
    dsimp only
    rw [if_neg (by simp [he])]

/-- C10 witness: `DOC.PDF` does not pass the case-sensitive suffix test,
so the derived name gets another `.pdf` appended. -/
theorem claim_C10_witness :
    pyEndsWith "DOC.PDF" ".pdf" = false ∧
    get_pdf_filename "https://x.com/DOC.PDF" =
      basename (urlparse "https://x.com/DOC.PDF" "").path ++ ".pdf" :=
  ⟨by decide,
   (claim_C10_case_sensitive_suffix "https://x.com/DOC.PDF").2.1 (by decide)⟩

end PdfCrawler
